import Mathlib

/-!
Shallow embedding of `scripts/siscan.py`, the Sister-Scanning (SiScan)
recombination-detection implementation, together with theorems settling the
specification claims about it.

Conventions of the embedding:
* nucleotide symbols are naturals; a column of the 4-row analysis window is a
  quadruple `(a, b, c, d)` and a window is a `List Col` of its columns;
* numpy boolean row comparisons become per-column `Bool` predicates and
  `np.sum` of a boolean vector becomes `List.countP`;
* Python floats are modelled as rationals; `float('NaN')` and NaN-producing
  library calls are modelled by the explicit value type `RVal`;
* fallible or stateful constructs (in-place shuffles through numpy views,
  `list.remove` during iteration) are modelled by explicit state passing that
  mirrors the interpreter's evaluation order.
-/

namespace Siscan

/-- A column of the 4-row window: the symbols of sequences `a`, `b`, `c`, `d`
(rows 0..3 of `seq_array`) at one alignment position. -/
abbrev Col := ℕ × ℕ × ℕ × ℕ

/-- Row equality `ab = (a == b)` at one column (source line `ab = a == b`). -/
def abEq (x : Col) : Bool := x.1 == x.2.1

/-- Row equality `bc = (b == c)` at one column. -/
def bcEq (x : Col) : Bool := x.2.1 == x.2.2.1

/-- Row equality `ac = (a == c)` at one column. -/
def acEq (x : Col) : Bool := x.1 == x.2.2.1

/-- Row equality `ad = (a == d)` at one column. -/
def adEq (x : Col) : Bool := x.1 == x.2.2.2

/-- Row equality `cd = (c == d)` at one column. -/
def cdEq (x : Col) : Bool := x.2.2.1 == x.2.2.2

/-- Row equality `bd = (b == d)` at one column. -/
def bdEq (x : Col) : Bool := x.2.1 == x.2.2.2

/-- Pattern 0: no pair of rows equal (`pat_counts[0]`). -/
def pat0 (x : Col) : Bool :=
  !abEq x && !acEq x && !adEq x && !bcEq x && !bdEq x && !cdEq x

/-- Pattern 1: `ab & ~ac & ~ad` (`pat_counts[1]`). -/
def pat1 (x : Col) : Bool := abEq x && !acEq x && !adEq x

/-- Pattern 2: `ac & ~ab & ~ad` (`pat_counts[2]`). -/
def pat2 (x : Col) : Bool := acEq x && !abEq x && !adEq x

/-- Pattern 3: `ad & ~ab & ~ac` (`pat_counts[3]`). -/
def pat3 (x : Col) : Bool := adEq x && !abEq x && !acEq x

/-- Pattern 4: `bc & ~ab & ~bd` (`pat_counts[4]`). -/
def pat4 (x : Col) : Bool := bcEq x && !abEq x && !bdEq x

/-- Pattern 5: `bd & ~ab & ~bc` (`pat_counts[5]`). -/
def pat5 (x : Col) : Bool := bdEq x && !abEq x && !bcEq x

/-- Pattern 6: `cd & ~bc & ~ac` (`pat_counts[6]`). -/
def pat6 (x : Col) : Bool := cdEq x && !bcEq x && !acEq x

/-- Pattern 7: `ab & cd & ~bc` (`pat_counts[7]`). -/
def pat7 (x : Col) : Bool := abEq x && cdEq x && !bcEq x

/-- Pattern 8: `ac & bd & ~bc` (`pat_counts[8]`). -/
def pat8 (x : Col) : Bool := acEq x && bdEq x && !bcEq x

/-- Pattern 9: `ad & bc & ~ab` (`pat_counts[9]`). -/
def pat9 (x : Col) : Bool := adEq x && bcEq x && !abEq x

/-- Pattern 10: `ab & bc & ~ad` (`pat_counts[10]`). -/
def pat10 (x : Col) : Bool := abEq x && bcEq x && !adEq x

/-- Pattern 11: `ab & bd & ~ac` (`pat_counts[11]`). -/
def pat11 (x : Col) : Bool := abEq x && bdEq x && !acEq x

/-- Pattern 12: `ac & cd & ~ab` (`pat_counts[12]`). -/
def pat12 (x : Col) : Bool := acEq x && cdEq x && !abEq x

/-- Pattern 13: `bc & cd & ~ab` (`pat_counts[13]`). -/
def pat13 (x : Col) : Bool := bcEq x && cdEq x && !abEq x

/-- Pattern 14: `ab & bc & ad` (`pat_counts[14]`). -/
def pat14 (x : Col) : Bool := abEq x && bcEq x && adEq x

/-- `Siscan.count_patterns`: the 15-entry vector of column counts, entry `k`
being the number of window columns satisfying pattern `k`
(`pat_counts[k] = np.sum(...)` in the source). -/
def count_patterns (w : List Col) : List ℕ :=
  [w.countP pat0, w.countP pat1, w.countP pat2, w.countP pat3, w.countP pat4,
   w.countP pat5, w.countP pat6, w.countP pat7, w.countP pat8, w.countP pat9,
   w.countP pat10, w.countP pat11, w.countP pat12, w.countP pat13,
   w.countP pat14]

/-- A column exhibiting one of the three complementary two-pair
configurations: `{a,b}{c,d}`, `{a,c}{b,d}` or `{a,d}{b,c}` (the columns
counted by patterns 7, 8 and 9). -/
def isTwoPairCol (x : Col) : Bool := pat7 x || pat8 x || pat9 x

/-- Per-column contribution to the total of the 15 pattern counts: every
column satisfies exactly one pattern of 0..14 unless it is a complementary
two-pair column, in which case it satisfies exactly three of them. -/
lemma col_contrib (x : Col) :
    ((if pat0 x then 1 else 0) + (if pat1 x then 1 else 0) +
     (if pat2 x then 1 else 0) + (if pat3 x then 1 else 0) +
     (if pat4 x then 1 else 0) + (if pat5 x then 1 else 0) +
     (if pat6 x then 1 else 0) + (if pat7 x then 1 else 0) +
     (if pat8 x then 1 else 0) + (if pat9 x then 1 else 0) +
     (if pat10 x then 1 else 0) + (if pat11 x then 1 else 0) +
     (if pat12 x then 1 else 0) + (if pat13 x then 1 else 0) +
     (if pat14 x then 1 else 0) : ℕ)
      = 1 + 2 * (if isTwoPairCol x then 1 else 0) := by
  obtain ⟨a, b, c, d⟩ := x
  rcases eq_or_ne a b with hab | hab <;>
    rcases eq_or_ne a c with hac | hac <;>
    rcases eq_or_ne a d with had | had <;>
    rcases eq_or_ne b c with hbc | hbc <;>
    rcases eq_or_ne b d with hbd | hbd <;>
    rcases eq_or_ne c d with hcd | hcd <;>
    simp_all [pat0, pat1, pat2, pat3, pat4, pat5, pat6, pat7, pat8, pat9,
      pat10, pat11, pat12, pat13, pat14, isTwoPairCol, abEq, bcEq, acEq,
      adEq, cdEq, bdEq]

/-- C3 (amended): the 15 pattern counts sum to the number of columns plus
twice the number of complementary two-pair columns; they partition the
columns exactly when no complementary two-pair column occurs. -/
theorem count_patterns_sum_eq_length_plus_double_pairs (w : List Col) :
    (count_patterns w).sum = w.length + 2 * w.countP isTwoPairCol := by
  induction w with
  | nil => rfl
  | cons x w ih =>
    have hx := col_contrib x
    simp only [count_patterns, List.countP_cons, List.sum_cons, List.sum_nil,
      List.length_cons] at ih ⊢
    omega

/-- C3 (counterexample): for the single-column input whose rows are
`a = b = 0`, `c = d = 1` the 15 pattern counts sum to 3, not to the number
of columns (1): patterns 1, 6 and 7 each count this column. -/
theorem count_patterns_sum_counterexample :
    (count_patterns [((0 : ℕ), (0 : ℕ), (1 : ℕ), (1 : ℕ))]).sum ≠
      [((0 : ℕ), (0 : ℕ), (1 : ℕ), (1 : ℕ))].length := by decide

/-- `Siscan.sum_pattern_counts`: the 9-entry summary vector; entries 0..2 are
left at 0 and entries 3..8 are the fixed four-term sums of pattern counts
from the source (`sum_pat_counts[3] = pat_counts[1] + pat_counts[7] + ...`). -/
def sum_pattern_counts (pc : List ℕ) : List ℕ :=
  [0, 0, 0,
   pc.getD 1 0 + pc.getD 7 0 + pc.getD 10 0 + pc.getD 11 0,
   pc.getD 2 0 + pc.getD 8 0 + pc.getD 10 0 + pc.getD 12 0,
   pc.getD 3 0 + pc.getD 9 0 + pc.getD 11 0 + pc.getD 12 0,
   pc.getD 4 0 + pc.getD 9 0 + pc.getD 10 0 + pc.getD 13 0,
   pc.getD 5 0 + pc.getD 8 0 + pc.getD 11 0 + pc.getD 13 0,
   pc.getD 6 0 + pc.getD 7 0 + pc.getD 12 0 + pc.getD 13 0]

/-- Steps (2)+(3) of `execute` for the real window: `sum_pattern_counts`
followed by the orchestrator overwriting entries 0..2 with the three
"informative site" sums (`sum_pat_counts[0] = pat_counts[1] + pat_counts[6] +
pat_counts[7]` and the two analogous lines). -/
def sum_pat_full (pc : List ℕ) : List ℕ :=
  [pc.getD 1 0 + pc.getD 6 0 + pc.getD 7 0,
   pc.getD 2 0 + pc.getD 5 0 + pc.getD 8 0,
   pc.getD 3 0 + pc.getD 4 0 + pc.getD 9 0] ++
    (sum_pattern_counts pc).drop 3

/-- Column selection `a1 = seq_array[:, p]` for an index vector `p`: the new
window's `j`-th column is the old window's `p[j]`-th column (numpy fancy
indexing; `np.random.permutation` supplies `p` as a permutation of
`range(L)`). -/
def applyPerm (p : List ℕ) (w : List Col) : List Col :=
  p.map fun i => w.getD i (0, 0, 0, 0)

/-- The permutation loop of `execute` (step (4)): `p_counts` and
`sum_p_counts` are rebound on every iteration, so the loop state after
processing the draws `perms` is whatever the final draw produced; before the
first iteration both are the empty list, as in the source. -/
def permLoop (w : List Col) (perms : List (List ℕ)) : List ℕ × List ℕ :=
  perms.foldl
    (fun _acc p =>
      let pc := count_patterns (applyPerm p w)
      (pc, sum_pattern_counts pc))
    ([], [])

/-- `np.mean` of a count vector, over the rationals. -/
def meanQ (l : List ℕ) : ℚ := (l.sum : ℚ) / l.length

/-- Step (5) of `execute` for one vector: each value `v` of `vals` is
standardized as `(v - mean pop) / std pop` where `pop` is the population
vector; the standard deviation is kept abstract as a parameter `std` (its
value is an irrational square root, and only the data it is applied to
matters for the claims). -/
def zscoresWith (std : List ℕ → ℚ) (vals pop : List ℕ) : List ℚ :=
  vals.map fun v => ((v : ℚ) - meanQ pop) / std pop

/-- The z-scoring pipeline of one window of `execute` (steps (1)-(5)):
pattern z-scores standardize the real window's 15 pattern counts against the
permutation loop's final `p_counts`, and summary z-scores standardize the
real window's 9 summary counts against the loop's final `sum_p_counts`. -/
def windowZscores (std : List ℕ → ℚ) (w : List Col) (perms : List (List ℕ)) :
    List ℚ × List ℚ :=
  let patCounts := count_patterns w
  let sumPat := sum_pat_full patCounts
  let pops := permLoop w perms
  (zscoresWith std patCounts pops.1, zscoresWith std sumPat pops.2)

/-- C7: the population statistics feeding both z-score vectors come solely
from the final column-permutation iteration: running the loop over any
earlier draws `perms` followed by a final draw `p` yields exactly the
z-scores of running it on `p` alone, the pattern z-scores standardizing the
window's 15 pattern counts against the final iteration's pattern vector and
the summary z-scores standardizing its 9 summary counts against the final
iteration's summary vector. -/
theorem zscores_use_only_last_permutation (std : List ℕ → ℚ) (w : List Col)
    (perms : List (List ℕ)) (p : List ℕ) :
    windowZscores std w (perms ++ [p]) = windowZscores std w [p] ∧
    windowZscores std w (perms ++ [p]) =
      (zscoresWith std (count_patterns w) (count_patterns (applyPerm p w)),
       zscoresWith std (sum_pat_full (count_patterns w))
         (sum_pattern_counts (count_patterns (applyPerm p w)))) := by
  constructor <;> simp [windowZscores, permLoop, List.foldl_append]

/-- Reading a list back off by its index range reproduces the list. -/
lemma map_getD_range (l : List Col) :
    (List.range l.length).map (fun i => l.getD i (0, 0, 0, 0)) = l := by
  induction l with
  | nil => rfl
  | cons x l ih =>
    simp only [List.length_cons, List.range_succ_eq_map, List.map_cons,
      List.map_map, Function.comp_def, Nat.succ_eq_add_one,
      List.getD_cons_zero, List.getD_cons_succ]
    rw [ih]

/-- Applying an index vector that is a permutation of `range L` to an
`L`-column window permutes its columns. -/
lemma applyPerm_perm (p : List ℕ) (w : List Col)
    (h : p.Perm (List.range w.length)) : (applyPerm p w).Perm w := by
  have h2 := h.map fun i => w.getD i (0, 0, 0, 0)
  rw [map_getD_range] at h2
  exact h2

/-- C10: jointly permuting the columns of the 4-row window leaves every one
of the 15 pattern counts, and hence also the 9 summary counts, unchanged; in
particular each iteration of the column-permutation loop in `execute`
reproduces the counts of the real, unpermuted window. -/
theorem count_patterns_perm_invariant (w : List Col) (p : List ℕ)
    (h : p.Perm (List.range w.length)) :
    count_patterns (applyPerm p w) = count_patterns w ∧
    sum_pattern_counts (count_patterns (applyPerm p w)) =
      sum_pattern_counts (count_patterns w) ∧
    permLoop w [p] = (count_patterns w,
      sum_pattern_counts (count_patterns w)) := by
  have hperm : (applyPerm p w).Perm w := applyPerm_perm p w h
  have hcp : count_patterns (applyPerm p w) = count_patterns w := by
    simp [count_patterns, hperm.countP_eq]
  refine ⟨hcp, by rw [hcp], ?_⟩
  simp [permLoop, hcp]

/-- C10 (witness): a concrete 2-column window and the transposition of its
two columns. -/
theorem count_patterns_perm_invariant_witness :
    count_patterns (applyPerm [1, 0]
        [((0 : ℕ), (1 : ℕ), (2 : ℕ), (3 : ℕ)),
         ((1 : ℕ), (1 : ℕ), (0 : ℕ), (0 : ℕ))]) =
      count_patterns
        [((0 : ℕ), (1 : ℕ), (2 : ℕ), (3 : ℕ)),
         ((1 : ℕ), (1 : ℕ), (0 : ℕ), (0 : ℕ))] :=
  (count_patterns_perm_invariant
    [((0 : ℕ), (1 : ℕ), (2 : ℕ), (3 : ℕ)),
     ((1 : ℕ), (1 : ℕ), (0 : ℕ), (0 : ℕ))] [1, 0] (by decide)).1

/-- Python `range(0, stop, step)` for a positive step: the multiples of
`step` below `stop`. -/
def pythonRange (stop step : ℕ) : List ℕ :=
  (List.range ((stop + step - 1) / step)).map (· * step)

/-- The window loop of `execute` (`for window in range(0, align_len,
step_size)`): the `(win_start, win_end)` pair computed by each iteration.
The body assigns `win_start = 0` and `win_end = win_start + win_size` on
every iteration, ignoring the loop variable. -/
def windowBounds (alignLen stepSize winSize : ℕ) : List (ℕ × ℕ) :=
  (pythonRange alignLen stepSize).map fun _window => (0, 0 + winSize)

/-- C1 (code bug): with a 400-column alignment, `step_size = 20` and
`win_size = 200`, the second window iteration (`k = 1`) still analyzes
columns `[0, 200)` instead of the claimed `[k * step_size, k * step_size +
win_size) = [20, 220)`: `win_start` is reset to 0 on every iteration, so the
window never advances. -/
theorem windows_never_advance :
    (windowBounds 400 20 200).getD 1 (7, 7) = (0, 200) ∧
      ((0 : ℕ), (200 : ℕ)) ≠ (1 * 20, 1 * 20 + 200) := by decide

/-- Shuffling a numpy slice view in place: `np.random.shuffle` reorders the
first `winEnd` entries of the underlying row by the drawn permutation `p`
(position `j` of the slice receives the old entry at position `p[j]`) and
leaves the tail beyond the slice untouched. -/
def shuffleSliceView (row : List ℕ) (winEnd : ℕ) (p : List ℕ) : List ℕ :=
  (p.map fun i => (row.take winEnd).getD i 0) ++ row.drop winEnd

/-- Lines 160-163 of the source: `d = triplet.sequences[selected_seq]
[win_start:win_end]` is a numpy basic slice and therefore a view of the
underlying row, so `np.random.shuffle(d)` permutes that slice of
`triplet.sequences[selected_seq]` in place.  This is the triplet's sequences
array after the shuffle. -/
def sequencesAfterShuffle (seqs : List (List ℕ)) (selectedSeq winEnd : ℕ)
    (p : List ℕ) : List (List ℕ) :=
  seqs.set selectedSeq (shuffleSliceView (seqs.getD selectedSeq []) winEnd p)

/-- C2 (code bug): shuffling the synthetic fourth sequence mutates the
triplet's sequences array, because the slice it is built from is a numpy
view, not a copy.  Concretely, for the 2-column triplet with rows
`[0,1]`, `[2,3]`, `[4,5]`, choosing row 0 and the transposition as the
shuffle leaves the array with row 0 changed to `[1,0]`. -/
theorem shuffle_mutates_triplet :
    sequencesAfterShuffle [[0, 1], [2, 3], [4, 5]] 0 2 [1, 0] =
        [[1, 0], [2, 3], [4, 5]] ∧
      sequencesAfterShuffle [[0, 1], [2, 3], [4, 5]] 0 2 [1, 0] ≠
        [[0, 1], [2, 3], [4, 5]] := by decide

/-- The `win_size` branch of `Siscan.validate_options`: the configured value
is replaced by the default 200 exactly when `win_size < 0 or win_size >
align.shape[1]` (the diagnostic print is a side effect not modelled). -/
def validate_win_size (winSize alignLen : ℤ) : ℤ :=
  if winSize < 0 ∨ winSize > alignLen then 200 else winSize

/-- C9 (counterexample): the claim predicts that `win_size = 0` (outside the
valid range `0 < win_size ≤ alignment length`) is replaced by the default
200, but `validate_options` tests `win_size < 0` and keeps 0 unchanged. -/
theorem validate_win_size_zero_counterexample :
    ¬ (validate_win_size 0 5 =
        if (0 : ℤ) < 0 ∧ (0 : ℤ) ≤ 5 then 0 else 200) := by decide

/-- C9 (amended): for a configured value different from the default,
substitution of the default 200 happens exactly when `win_size < 0` or
`win_size >` alignment length; any `win_size` with `0 ≤ win_size ≤`
alignment length — including the zero-width `win_size = 0` — is kept. -/
theorem validate_win_size_condition (w L : ℤ) (hw : w ≠ 200) :
    (validate_win_size w L = 200 ↔ w < 0 ∨ L < w) ∧
      (0 ≤ w → w ≤ L → validate_win_size w L = w) := by
  unfold validate_win_size
  constructor
  · constructor
    · intro h
      by_contra hc
      push_neg at hc
      rw [if_neg] at h
      · exact hw h
      · push_neg
        exact ⟨hc.1, hc.2⟩
    · intro h
      rw [if_pos]
      rcases h with h | h
      · exact Or.inl h
      · exact Or.inr h
  · intro h1 h2
    rw [if_neg]
    push_neg
    exact ⟨h1, h2⟩

/-- C9 (witness): at `win_size = -3` and alignment length 10, the default is
substituted; at `win_size = 0` the value is kept. -/
theorem validate_win_size_condition_witness :
    validate_win_size (-3) 10 = 200 ∧ validate_win_size 0 10 = 0 :=
  ⟨(validate_win_size_condition (-3) 10 (by decide)).1.mpr (by decide),
   (validate_win_size_condition 0 10 (by decide)).2 (by decide) (by decide)⟩

/-- A value of the `r_coeff` list: either an ordinary number (modelled as a
rational) or the floating-point `NaN` produced by `float('NaN')` or by a
degenerate correlation. -/
inductive RVal where
  | num (q : ℚ)
  | nan
deriving DecidableEq

/-- Whether an `r_coeff` entry is the floating-point `NaN`. -/
def isNan : RVal → Bool
  | RVal.nan => true
  | RVal.num _ => false

/-- The numeric value of a non-`NaN` entry (0 on `NaN`; only used under
hypotheses excluding `NaN`). -/
def rvalQ : RVal → ℚ
  | RVal.num q => q
  | RVal.nan => 0

/-- Modelled from the spec: `all_items_equal` from `scripts.common` (not
under `src/`), "has all-equal values", applied to the two-element distance
lists `upstream_dists[i]` and `downstream_dists[i]`: both entries equal. -/
def allEqPair (x : ℚ × ℚ) : Bool := x.1 == x.2

/-- The degeneracy test of line 255/257/259 for sequence `i`:
`all_items_equal(upstream_dists[i]) or all_items_equal(downstream_dists[i])`.
The distance lists (pairwise Jukes-Cantor distances against the two other
sequences, computed by the external `jc_distance`) are taken as inputs. -/
def degenerateAt (up down : List (ℚ × ℚ)) (i : ℕ) : Bool :=
  allEqPair (up.getD i (0, 0)) || allEqPair (down.getD i (0, 0))

/-- `scipy.stats.pearsonr` on two 2-element samples, modelled exactly: with
only two points the correlation is `NaN` when either sample is constant
(zero variance) and otherwise `sign((u1 - u0) * (v1 - v0))`, i.e. `±1`. -/
def pearson2 (u v : ℚ × ℚ) : RVal :=
  if u.1 = u.2 ∨ v.1 = v.2 then RVal.nan
  else RVal.num (if 0 < (u.2 - u.1) * (v.2 - v.1) then 1 else -1)

/-- Lines 254-265 of the source: `r_coeff` starts as `[0, 0, 0]`; an
`if`/`elif` chain sets the first degenerate sequence's coefficient to `NaN`,
and only when no sequence is degenerate are the three Pearson coefficients
computed. -/
def r_coeff (up down : List (ℚ × ℚ)) : List RVal :=
  if degenerateAt up down 0 then [RVal.nan, RVal.num 0, RVal.num 0]
  else if degenerateAt up down 1 then [RVal.num 0, RVal.nan, RVal.num 0]
  else if degenerateAt up down 2 then [RVal.num 0, RVal.num 0, RVal.nan]
  else [pearson2 (up.getD 0 (0, 0)) (down.getD 0 (0, 0)),
        pearson2 (up.getD 1 (0, 0)) (down.getD 1 (0, 0)),
        pearson2 (up.getD 2 (0, 0)) (down.getD 2 (0, 0))]

/-- C5 (counterexample): with all six distance lists all-equal (the
all-zero distances of three identical sequences), sequence 1's lists are
degenerate, yet its coefficient is `0`, not `NaN`: only the first branch of
the `if`/`elif` chain fires. -/
theorem r_coeff_second_degenerate_not_nan :
    r_coeff [(0, 0), (0, 0), (0, 0)] [(0, 0), (0, 0), (0, 0)] =
        [RVal.nan, RVal.num 0, RVal.num 0] ∧
      degenerateAt [(0, 0), (0, 0), (0, 0)] [(0, 0), (0, 0), (0, 0)] 1 =
        true := by decide

/-- C5 (amended): a coefficient is `NaN` exactly when its sequence is the
first (in index order 0, 1, 2) whose upstream or downstream distance list is
all-equal; a degenerate sequence preceded by another degenerate sequence
keeps the initial coefficient 0. -/
theorem r_coeff_nan_iff_first_degenerate (up down : List (ℚ × ℚ)) :
    ((r_coeff up down).getD 0 (RVal.num 0) = RVal.nan ↔
      degenerateAt up down 0 = true) ∧
    ((r_coeff up down).getD 1 (RVal.num 0) = RVal.nan ↔
      (degenerateAt up down 0 = false ∧ degenerateAt up down 1 = true)) ∧
    ((r_coeff up down).getD 2 (RVal.num 0) = RVal.nan ↔
      (degenerateAt up down 0 = false ∧ degenerateAt up down 1 = false ∧
        degenerateAt up down 2 = true)) := by
  unfold r_coeff
  split_ifs with h0 h1 h2 <;>
    simp_all [pearson2, degenerateAt, allEqPair] <;> tauto

/-- The scan of `np.argmin` over a float vector, continuing from index `i`
with current best index `besti` and best value `bestq`: a strictly smaller
value becomes the new best, and a `NaN` is immediately returned as the
result (numpy propagates `NaN` through `argmin`: the first `NaN`
encountered is the minimum). -/
def argminGo : List RVal → ℕ → ℕ → ℚ → ℕ
  | [], _, besti, _ => besti
  | RVal.nan :: _, i, _, _ => i
  | RVal.num q :: rest, i, besti, bestq =>
    if q < bestq then argminGo rest (i + 1) i q
    else argminGo rest (i + 1) besti bestq

/-- `np.argmin` on a list of float values: the index of the first `NaN` if
any is present, otherwise the first index attaining the minimum. -/
def np_argmin (l : List RVal) : ℕ :=
  match l with
  | [] => 0
  | RVal.nan :: _ => 0
  | RVal.num q :: rest => argminGo rest 1 0 q

/-- Lines 267-272 of the source: the recombinant is
`trp_names.pop(np.argmin(r_coeff))` and the parents are the remaining two
names in original order. -/
def select_recombinant (names : List ℕ) (r : List RVal) : ℕ × List ℕ :=
  (names.getD (np_argmin r) 0, names.eraseIdx (np_argmin r))

/-- `Siscan.identify_recombinant`, from the per-sequence distance lists
onward: build `r_coeff` and select by `np.argmin`. -/
def identify_recombinant (names : List ℕ) (up down : List (ℚ × ℚ)) :
    ℕ × List ℕ :=
  select_recombinant names (r_coeff up down)

/-- C6 (counterexample): with only sequence 0 degenerate, the coefficients
are `[NaN, 0, 0]`; not all three are `NaN`, yet `np.argmin` selects the
`NaN` entry and the recombinant returned is name 10 — the claim demands a
non-`NaN` minimum (name 20 or 30) in this situation. -/
theorem argmin_selects_nan_recombinant :
    identify_recombinant [10, 20, 30] [(0, 0), (1, 2), (3, 4)]
        [(0, 1), (2, 3), (4, 5)] = (10, [20, 30]) ∧
      r_coeff [(0, 0), (1, 2), (3, 4)] [(0, 1), (2, 3), (4, 5)] =
        [RVal.nan, RVal.num 0, RVal.num 0] := by decide

/-- C6 (amended): the recombinant is the name at `np.argmin(r_coeff)` and
the parents are the remaining two names in original order, where `np.argmin`
follows numpy's `NaN` semantics: it returns the index of the first `NaN`
coefficient whenever any coefficient is `NaN` (so a `NaN` is always
selected, not avoided), and otherwise the first index attaining the
minimum. -/
theorem identify_recombinant_argmin_semantics (names : List ℕ)
    (r0 r1 r2 : RVal) :
    select_recombinant names [r0, r1, r2] =
      (names.getD (np_argmin [r0, r1, r2]) 0,
       names.eraseIdx (np_argmin [r0, r1, r2])) ∧
    (isNan r0 = true → np_argmin [r0, r1, r2] = 0) ∧
    (isNan r0 = false → isNan r1 = true → np_argmin [r0, r1, r2] = 1) ∧
    (isNan r0 = false → isNan r1 = false → isNan r2 = true →
      np_argmin [r0, r1, r2] = 2) ∧
    (isNan r0 = false → isNan r1 = false → isNan r2 = false →
      np_argmin [r0, r1, r2] < 3 ∧
      (∀ j, j < 3 →
        rvalQ ([r0, r1, r2].getD (np_argmin [r0, r1, r2]) RVal.nan) ≤
          rvalQ ([r0, r1, r2].getD j RVal.nan)) ∧
      (∀ j, j < np_argmin [r0, r1, r2] →
        rvalQ ([r0, r1, r2].getD (np_argmin [r0, r1, r2]) RVal.nan) <
          rvalQ ([r0, r1, r2].getD j RVal.nan))) := by
  refine ⟨rfl, ?_, ?_, ?_, ?_⟩
  · intro h
    cases r0 with
    | nan => rfl
    | num q0 => simp [isNan] at h
  · intro h0 h1
    cases r0 with
    | nan => simp [isNan] at h0
    | num q0 =>
      cases r1 with
      | num q1 => simp [isNan] at h1
      | nan => rfl
  · intro h0 h1 h2
    cases r0 with
    | nan => simp [isNan] at h0
    | num q0 =>
      cases r1 with
      | nan => simp [isNan] at h1
      | num q1 =>
        cases r2 with
        | num q2 => simp [isNan] at h2
        | nan =>
          simp only [np_argmin, argminGo]
          split <;> rfl
  · intro h0 h1 h2
    cases r0 with
    | nan => simp [isNan] at h0
    | num q0 =>
      cases r1 with
      | nan => simp [isNan] at h1
      | num q1 =>
        cases r2 with
        | nan => simp [isNan] at h2
        | num q2 =>
          simp only [np_argmin, argminGo]
          split_ifs with ha hb hc <;>
            refine ⟨by norm_num, ?_, ?_⟩ <;>
            intro j hj <;>
            interval_cases j <;>
            simp [rvalQ] <;>
            linarith

/-- C6 (witness): for coefficients `[2, NaN, 0]` the selected index is 1,
the position of the first `NaN`. -/
theorem identify_recombinant_argmin_semantics_witness :
    np_argmin [RVal.num 2, RVal.nan, RVal.num 0] = 1 :=
  (identify_recombinant_argmin_semantics [10, 20, 30] (RVal.num 2) RVal.nan
      (RVal.num 0)).2.2.1 (by decide) (by decide)

/-- Indexing `sum_pat_zscore[i]` (0 for out-of-range indices; the source
never indexes out of range for detected peaks). -/
def zAt (z : List ℚ) (i : ℕ) : ℚ := z.getD i 0

/-- The guard of the peak-refinement `while` loop (lines 211-214):
`peak - r > 0 and peak + r < len(z) - 1 and z[peak + r] > 0.3 * z[peak] and
z[peak - r] > 0.3 * z[peak]`. -/
def searchCond (z : List ℚ) (p r : ℕ) : Prop :=
  p - r > 0 ∧ p + r < z.length - 1 ∧
    zAt z (p + r) > 3 / 10 * zAt z p ∧ zAt z (p - r) > 3 / 10 * zAt z p

instance searchCondDec (z : List ℚ) (p r : ℕ) : Decidable (searchCond z p r) := by
  unfold searchCond
  infer_instance

/-- The peak-refinement `while` loop: increment `search_win_size` while the
guard holds. -/
def searchLoop (z : List ℚ) (p : ℕ) (r : ℕ) : ℕ :=
  if h : searchCond z p r then searchLoop z p (r + 1) else r
termination_by z.length - r
decreasing_by
  have h2 := h.2.1
  omega

/-- The final `search_win_size` for a peak `p`: the loop started at radius 1. -/
def search_win_size (z : List ℚ) (p : ℕ) : ℕ := searchLoop z p 1

/-- Lines 217-220 of the source: the reported breakpoint interval for peak
`p` with final radius `r`: `(p, p + r + win_size)` if
`z[p + r] > z[p - r]`, else `(p - r, p + win_size)`. -/
def aln_pos (z : List ℚ) (p winSize : ℕ) : ℕ × ℕ :=
  if zAt z (p + search_win_size z p) > zAt z (p - search_win_size z p) then
    (p, p + search_win_size z p + winSize)
  else (p - search_win_size z p, p + winSize)

/-- While-loop characterization of `searchLoop`: the result is at least the
starting radius, the guard fails at the result, and the guard holds at every
radius from the start up to (excluding) the result. -/
lemma searchLoop_spec (z : List ℚ) (p r : ℕ) :
    r ≤ searchLoop z p r ∧ ¬ searchCond z p (searchLoop z p r) ∧
      ∀ s, r ≤ s → s < searchLoop z p r → searchCond z p s := by
  induction r using searchLoop.induct z p with
  | case1 r h ih =>
    rw [searchLoop.eq_def, dif_pos h]
    obtain ⟨ih1, ih2, ih3⟩ := ih
    refine ⟨by omega, ih2, fun s hs1 hs2 => ?_⟩
    rcases eq_or_lt_of_le hs1 with rfl | hlt
    · exact h
    · exact ih3 s hlt hs2
  | case2 r h =>
    rw [searchLoop.eq_def, dif_neg h]
    exact ⟨le_rfl, h, fun s hs1 hs2 => absurd (hs1.trans_lt hs2) (lt_irrefl r)⟩

/-- C8: for every peak `p`, the final search radius `r = search_win_size`
satisfies: `r ≥ 1`, the guard `p - r > 0 ∧ p + r < length - 1 ∧
z[p+r] > 0.3*z[p] ∧ z[p-r] > 0.3*z[p]` holds at every radius from 1 up to
(excluding) `r` and fails at `r` (so `r` is exactly where the incrementing
stops), and the reported interval is `(p, p + r + win_size)` when
`z[p+r] > z[p-r]` and `(p - r, p + win_size)` otherwise. -/
theorem peak_interval_spec (z : List ℚ) (p winSize : ℕ) :
    1 ≤ search_win_size z p ∧
    ¬ searchCond z p (search_win_size z p) ∧
    (∀ s, 1 ≤ s → s < search_win_size z p → searchCond z p s) ∧
    aln_pos z p winSize =
      (if zAt z (p + search_win_size z p) >
          zAt z (p - search_win_size z p) then
        (p, p + search_win_size z p + winSize)
      else (p - search_win_size z p, p + winSize)) := by
  obtain ⟨h1, h2, h3⟩ := searchLoop_spec z p 1
  exact ⟨h1, h2, h3, rfl⟩

/-- C8 (witness): for the smoothed vector `[0, 1, 10, 1, 0]`, peak 2 and
window size 5, the radius stays 1 (the first neighbors already fall below
30% of the peak) and the interval is `(1, 7)` (the `else` branch: the
neighbors tie). -/
theorem peak_interval_spec_witness :
    1 ≤ search_win_size [0, 1, 10, 1, 0] 2 ∧
      aln_pos [0, 1, 10, 1, 0] 2 5 = (1, 7) := by
  have h := peak_interval_spec [0, 1, 10, 1, 0] 2 5
  have hr : search_win_size [0, 1, 10, 1, 0] 2 = 1 := by
    rw [search_win_size, searchLoop.eq_def]
    norm_num [searchCond, zAt, List.getD_cons_succ, List.getD_cons_zero]
  refine ⟨h.1, ?_⟩
  rw [h.2.2.2, hr]
  norm_num [zAt, List.getD_cons_succ, List.getD_cons_zero]

/-- A raw interval record of one group: `(start, end, score)`, the tuple
`raw_results[i][2:]` stored in `results_dict[key]`. -/
abbrev Region := ℕ × ℕ × ℚ

/-- A raw breakpoint call `(recombinant_name, parent_pair, start, end,
score)`; names are modelled as naturals. -/
abbrev Raw := ℕ × (ℕ × ℕ) × ℕ × ℕ × ℚ

/-- `tuple(sorted(parents))` for a 2-element parent pair. -/
def sortedPair (x : ℕ × ℕ) : ℕ × ℕ := if x.1 ≤ x.2 then x else (x.2, x.1)

/-- Appending a region to its key's list in the insertion-ordered
`results_dict` (Python dicts preserve insertion order). -/
def addToGroup (gs : List ((ℕ × ℕ × ℕ) × List Region)) (k : ℕ × ℕ × ℕ)
    (v : Region) : List ((ℕ × ℕ × ℕ) × List Region) :=
  match gs with
  | [] => [(k, [v])]
  | g :: rest =>
    if g.1 = k then (g.1, g.2 ++ [v]) :: rest else g :: addToGroup rest k v

/-- The inner `for region2 in old_regions` loop of `merge_breakpoints`:
`olds` is the snapshot `old_regions`, `reg` the mutable `region` being
extended, and `cur` the live list `results_dict[key]`, from which every
overlapping `region2` is removed by value (`list.remove` deletes the first
occurrence). -/
def merge_inner : List Region → Region → List Region → Region × List Region
  | [], reg, cur => (reg, cur)
  | r2 :: olds, reg, cur =>
    if (reg.1 ≤ r2.1 ∧ r2.1 ≤ reg.2.1) ∨
        (reg.1 ≤ r2.2.1 ∧ r2.2.1 ≤ reg.2.1) then
      merge_inner olds (min reg.1 r2.1, max reg.2.1 r2.2.1, reg.2.2)
        (cur.erase r2)
    else merge_inner olds reg cur

/-- The outer `for region in results_dict[key]` loop: Python iterates the
live list by an internal index, so elements removed by the inner loop shift
later elements under the iterator.  `i` is the iterator index into the
current list `cur`; the fuel (initially the group's size, an upper bound on
the number of iterations, since the list never grows) makes the recursion
structural. -/
def merge_outer : ℕ → List Region → ℕ → List Region → List Region
  | 0, _, _, acc => acc
  | fuel + 1, cur, i, acc =>
    if h : i < cur.length then
      let step := merge_inner cur (cur.get ⟨i, h⟩) cur
      merge_outer fuel step.2 (i + 1) (acc ++ [step.1])
    else acc

/-- The merge pass of `merge_breakpoints` for one key's region list. -/
def merge_group (group : List Region) : List Region :=
  merge_outer group.length group 0 []

/-- `Siscan.merge_breakpoints`: group the raw calls by
`(recombinant, sorted parent pair)` in insertion order, run the merge pass
on each group, and emit `(rec_name, parents, start, end, p_value)` for every
surviving region. -/
def merge_breakpoints (raw : List Raw) : List Raw :=
  let groups := raw.foldl
    (fun gs r =>
      addToGroup gs (r.1, sortedPair r.2.1) (r.2.2.1, r.2.2.2.1, r.2.2.2.2))
    []
  (groups.map fun g =>
    (merge_group g.2).map fun rg => (g.1.1, g.1.2, rg.1, rg.2.1, rg.2.2)).flatten

/-- C4 (code bug): three pairwise-disjoint raw calls under the same key form
three singleton overlap groups, so the claim demands three output intervals;
the code returns only two — the middle interval `(10, 20)` is dropped,
because the inner loop removes each region (which always overlaps itself)
from the live list while the outer loop is iterating it by index. -/
theorem merge_breakpoints_drops_disjoint_interval :
    merge_breakpoints
        [(0, (1, 2), 1, 2, 5), (0, (1, 2), 10, 20, 6),
         (0, (1, 2), 30, 40, 7)] =
      [(0, (1, 2), 1, 2, 5), (0, (1, 2), 30, 40, 7)] := by decide

end Siscan
